import Mathlib

/-!
Shallow embedding of the `aaa` runtime substrate (the C sources under
`src/c/`): the tagged value type, the open-chained hash map (`map.c`),
the growable vector (`vector.c`), the byte-string operations (`str.c`),
the integer repr (`var.c`) and the operand-stack opcodes (`stack.c`).

Modelling conventions:
* C byte strings (`struct aaa_string`) are `List Nat` of byte values
  (no embedded NUL bytes, since the C code computes lengths with
  `strlen`); ASCII values are written numerically (`97` = `a`,
  `44` = `,`, `45` = `-`, `48` = `0`).
* `size_t` arithmetic is `Nat` reduced `% 2^64` where wraparound can
  occur; C `int` values are `Int` (overflow of `+`/`*` is undefined
  behaviour in the source and outside the claims checked here), and
  C `int` division/remainder truncate toward zero (`Int.tdiv`/`Int.tmod`).
* Reference counting is invisible to a value-level embedding: claims
  here are about the values stored, not about liveness.
* Fatal aborts (`abort()` after a diagnostic) are explicit result
  constructors; loops of the source that need not terminate are given
  explicit fuel, `none` standing for running out of the bound.
-/

namespace Aaa

/-- The tagged variant (`enum aaa_kind` / `struct aaa_variable`, var.c),
restricted to the scalar and text kinds the checked claims exercise;
containers are embedded as Lean containers of `AaaVariable` where needed
(`aaa_vector` below), and the iterator kinds never appear in the claims.
On this fragment `aaa_variable_hash` and `aaa_variable_equals` are total
(in the source they abort on the container/iterator kinds). -/
inductive AaaVariable : Type where
  | integer (n : Int)
  | boolean (b : Bool)
  | string (s : List Nat)
  deriving DecidableEq, Repr

/-- Cast an `Int` to `size_t`: the low 64 bits of the two's-complement
representation. -/
def toSizeT (n : Int) : Nat := (n % (2 ^ 64 : Int)).toNat

/-- Wrap an `Int` to the signed 32-bit (`int`) range, modelling the
two's-complement wraparound the compilers used by this project give to
`int` shifts. -/
def wrap32 (n : Int) : Int := (n + 2 ^ 31) % 2 ^ 32 - 2 ^ 31

/-- The value of a byte read through C `char` (signed on the project's
platforms): bytes at or above 128 are negative. -/
def signedChar (b : Nat) : Int := if b < 128 then (b : Int) else (b : Int) - 256

/-- `aaa_variable_hash` (var.c): boolean hashes to 0/1; integer to
`(size_t)(i ^ 0x123456789) + (size_t)(i << 13) + (size_t)(i >> 17)`
(the xor is performed at `long` width, the shifts at `int` width, `>>`
arithmetic); string to the byte fold `hash * 123457 + (size_t)byte`,
all in 64-bit `size_t` arithmetic. -/
def aaa_variable_hash : AaaVariable → Nat
  | .boolean b => if b then 1 else 0
  | .integer n =>
      ((toSizeT n ^^^ 0x123456789) + toSizeT (wrap32 (n * 2 ^ 13))
        + toSizeT (Int.fdiv n (2 ^ 17))) % 2 ^ 64
  | .string s => s.foldl (fun h b => (h * 123457 + toSizeT (signedChar b)) % 2 ^ 64) 0

/-- `aaa_variable_equals` (var.c): differing kinds compare unequal;
integers and booleans by value, strings bytewise (`strcmp == 0`). -/
def aaa_variable_equals : AaaVariable → AaaVariable → Bool
  | .integer a, .integer b => a == b
  | .boolean a, .boolean b => a == b
  | .string a, .string b => a == b
  | _, _ => false

/-- Modelled from the spec: `aaa_variable_copy` is used by map.c and
vector.c but its definition is not among the provided sources. Per the
spec a copy is a deep value copy ("every element gets a fresh value
copy ..., not a shared alias"); in a value-level embedding a deep copy
of a value is that same value. -/
def aaa_variable_copy (v : AaaVariable) : AaaVariable := v

/-! ## Map (map.c) -/

/-- One chained entry (`struct aaa_map_item`); a bucket's chain is the
list from the bucket head following `next`. -/
structure AaaMapItem : Type where
  key : AaaVariable
  value : AaaVariable
  hash : Nat
  deriving DecidableEq, Repr

/-- `struct aaa_map`: `buckets` has length `bucket_count`; `size` is
the stored pair count. -/
structure AaaMap : Type where
  bucket_count : Nat
  buckets : List (List AaaMapItem)
  size : Nat
  deriving DecidableEq, Repr

/-- `aaa_map_new`: 16 empty buckets, size 0. -/
def aaa_map_new : AaaMap :=
  { bucket_count := 16, buckets := List.replicate 16 [], size := 0 }

/-- `aaa_map_get_item`: hash the key, scan the chain of bucket
`hash % bucket_count` for the first item with equal stored hash and
`aaa_variable_equals` key. -/
def aaa_map_get_item (m : AaaMap) (key : AaaVariable) : Option AaaMapItem :=
  let hash := aaa_variable_hash key
  let bucket := hash % m.bucket_count
  (m.buckets.getD bucket []).find? fun item =>
    item.hash == hash && aaa_variable_equals key item.key

/-- `aaa_map_get`: the found item's value, or NULL (`none`). -/
def aaa_map_get (m : AaaMap) (key : AaaVariable) : Option AaaVariable :=
  (aaa_map_get_item m key).map (·.value)

/-- `aaa_map_has_key`. -/
def aaa_map_has_key (m : AaaMap) (key : AaaVariable) : Bool :=
  (aaa_map_get_item m key).isSome

/-- `aaa_map_rehash m new_bucket_count` (map.c:81): the source returns
immediately when `bucket_count < new_bucket_count`; otherwise it
allocates `new_bucket_count` empty buckets and re-chains, walking `b`
over `[0, old_size)` (the loop bound in the source is `old_size`, the
entry count) and pushing each item of chain `old_buckets[b]` in chain
order onto the front of new bucket `hash % new_bucket_count`. `size`
is not touched. -/
def aaa_map_rehash (m : AaaMap) (new_bucket_count : Nat) : AaaMap :=
  if m.bucket_count < new_bucket_count then m
  else
    let old_size := m.size
    let old_buckets := m.buckets
    let empty : List (List AaaMapItem) := List.replicate new_bucket_count []
    let buckets := (List.range old_size).foldl
      (fun acc b =>
        (old_buckets.getD b []).foldl
          (fun acc2 item =>
            let nb := item.hash % new_bucket_count
            acc2.set nb (item :: acc2.getD nb []))
          acc)
      empty
    { bucket_count := new_bucket_count, buckets := buckets, size := m.size }

/-- Replace, in one chain, the value of the first item matching the
given hash and key (the in-place `item->value` assignment of
`aaa_map_set` on the found branch). -/
def aaa_chain_replace (chain : List AaaMapItem) (hash : Nat) (key value : AaaVariable) :
    List AaaMapItem :=
  match chain with
  | [] => []
  | item :: rest =>
      if item.hash == hash && aaa_variable_equals key item.key then
        { item with value := value } :: rest
      else
        item :: aaa_chain_replace rest hash key value

/-- `aaa_map_set` (map.c:186): if the key is found, its item's value is
replaced in place; otherwise a new item is pushed onto the front of its
bucket's chain, `size` is incremented, and when the load factor
`size / bucket_count` exceeds 0.75 (`4 * size > 3 * bucket_count`; the
float division of the source is exact at these magnitudes)
`aaa_map_rehash` is invoked with doubled bucket count. The source
assigns `item->value` after the rehash; the rehash moves items without
altering them, so assigning the value at insertion is equivalent. -/
def aaa_map_set (m : AaaMap) (key new_value : AaaVariable) : AaaMap :=
  let hash := aaa_variable_hash key
  let bucket := hash % m.bucket_count
  match aaa_map_get_item m key with
  | some _ =>
      let chain := aaa_chain_replace (m.buckets.getD bucket []) hash key
        (aaa_variable_copy new_value)
      { m with buckets := m.buckets.set bucket chain }
  | none =>
      let item : AaaMapItem :=
        { key := aaa_variable_copy key, value := aaa_variable_copy new_value, hash := hash }
      let m1 : AaaMap :=
        { m with buckets := m.buckets.set bucket (item :: m.buckets.getD bucket []),
                 size := m.size + 1 }
      if 4 * m1.size > 3 * m1.bucket_count then
        aaa_map_rehash m1 (m1.bucket_count * 2)
      else m1

/-- `aaa_map_size`. -/
def aaa_map_size (m : AaaMap) : Nat := m.size

/-- Thirteen distinct integer keys inserted into a fresh map: enough to
push the load factor over 0.75 (13/16 = 0.8125). -/
def mapThirteen : AaaMap :=
  (List.range 13).foldl (fun m i => aaa_map_set m (.integer i) (.integer 0)) aaa_map_new

/-- A fresh map holding the single entry `Integer 5 ↦ Integer 99`
(stored in bucket 12 of 16). -/
def mapSingle5 : AaaMap := aaa_map_set aaa_map_new (.integer 5) (.integer 99)

/-! ## Stack (stack.c) -/

/-- Outcome of a stack opcode. `underflow`/`overflow`/`typeError` are
the fatal aborts of `aaa_stack_prevent_underflow`,
`aaa_stack_prevent_overflow` and `aaa_variable_check_kind`;
`oobRead idx` marks an unchecked read of `stack->data[idx]` with `idx`
outside the live region `[0, size)`, whose value the C semantics does
not define. -/
inductive AaaResult (α : Type) : Type where
  | ok (a : α)
  | underflow
  | overflow
  | typeError
  | oobRead (idx : Nat)
  deriving DecidableEq, Repr

instance : Monad AaaResult where
  pure := .ok
  bind r f :=
    match r with
    | .ok a => f a
    | .underflow => .underflow
    | .overflow => .overflow
    | .typeError => .typeError
    | .oobRead i => .oobRead i

/-- `struct aaa_stack`: `data.get? i` models `stack->data[i]` for
`i < size`; `size` is `data.length`; `max_size` is set to 1024 by
`aaa_stack_init` and never changed. -/
structure AaaStack : Type where
  data : List AaaVariable
  max_size : Nat
  deriving DecidableEq, Repr

/-- `aaa_stack_init`: empty stack, `max_size` 1024. -/
def aaa_stack_init : AaaStack := { data := [], max_size := 1024 }

/-- `aaa_stack_top` (stack.c:55): reads `data[size - 1]` with no bounds
check; `size - 1` is computed in `size_t`, so on an empty stack the read
is at index `2^64 - 1`, far outside the live region. -/
def aaa_stack_top (st : AaaStack) : AaaResult AaaVariable :=
  let idx := (st.data.length + (2 ^ 64 - 1)) % 2 ^ 64
  match st.data[idx]? with
  | some v => .ok v
  | none => .oobRead idx

/-- `aaa_stack_push`: `aaa_stack_prevent_overflow` aborts when
`size + 1 >= max_size`; otherwise the value is stored at `data[size]`
and `size` is incremented. -/
def aaa_stack_push (st : AaaStack) (v : AaaVariable) : AaaResult AaaStack :=
  if st.data.length + 1 ≥ st.max_size then .overflow
  else .ok { st with data := st.data ++ [v] }

/-- `aaa_stack_pop` (stack.c:65): `aaa_stack_prevent_underflow(stack, 1)`
aborts when `size < 1`; otherwise the top is returned and `size`
decremented. -/
def aaa_stack_pop (st : AaaStack) : AaaResult (AaaVariable × AaaStack) :=
  if st.data.length < 1 then .underflow
  else do
    let v ← aaa_stack_top st
    pure (v, { st with data := st.data.dropLast })

/-- `aaa_stack_dup` (stack.c:152): `aaa_stack_top` followed by
`aaa_stack_push` — no underflow check. -/
def aaa_stack_dup (st : AaaStack) : AaaResult AaaStack := do
  let v ← aaa_stack_top st
  aaa_stack_push st v

/-- `aaa_variable_get_int`: `aaa_variable_check_kind` aborts unless the
kind is Integer. -/
def aaa_variable_get_int : AaaVariable → AaaResult Int
  | .integer n => .ok n
  | _ => .typeError

/-- `aaa_variable_get_bool`. -/
def aaa_variable_get_bool : AaaVariable → AaaResult Bool
  | .boolean b => .ok b
  | _ => .typeError

/-- `aaa_stack_pop_int`: pop, then extract the Integer payload. -/
def aaa_stack_pop_int (st : AaaStack) : AaaResult (Int × AaaStack) := do
  let (v, st1) ← aaa_stack_pop st
  let n ← aaa_variable_get_int v
  pure (n, st1)

/-- `aaa_stack_push_int`. -/
def aaa_stack_push_int (st : AaaStack) (n : Int) : AaaResult AaaStack :=
  aaa_stack_push st (.integer n)

/-- `aaa_stack_push_bool`. -/
def aaa_stack_push_bool (st : AaaStack) (b : Bool) : AaaResult AaaStack :=
  aaa_stack_push st (.boolean b)

/-- `aaa_stack_divide` (stack.c:215): pop `rhs`, pop `lhs`; a zero
divisor pushes `(0, false)`, otherwise `(lhs / rhs, true)` with C `int`
division (truncation toward zero, `Int.tdiv`). -/
def aaa_stack_divide (st : AaaStack) : AaaResult AaaStack := do
  let (rhs, st1) ← aaa_stack_pop_int st
  let (lhs, st2) ← aaa_stack_pop_int st1
  if rhs = 0 then do
    let st3 ← aaa_stack_push_int st2 0
    aaa_stack_push_bool st3 false
  else do
    let st3 ← aaa_stack_push_int st2 (Int.tdiv lhs rhs)
    aaa_stack_push_bool st3 true

/-- `aaa_stack_modulo` (stack.c:283): as `aaa_stack_divide` with C `%`
(remainder of the truncating division, `Int.tmod`). -/
def aaa_stack_modulo (st : AaaStack) : AaaResult AaaStack := do
  let (rhs, st1) ← aaa_stack_pop_int st
  let (lhs, st2) ← aaa_stack_pop_int st1
  if rhs = 0 then do
    let st3 ← aaa_stack_push_int st2 0
    aaa_stack_push_bool st3 false
  else do
    let st3 ← aaa_stack_push_int st2 (Int.tmod lhs rhs)
    aaa_stack_push_bool st3 true

/-- `aaa_stack_fsync` (stack.c:909): pops the file-descriptor integer
and calls `fsync(fd)`; the syscall's success is the external parameter
`fsync_ok`. The source pushes `false` when the call failed and then —
with no `else` — unconditionally pushes `true`. -/
def aaa_stack_fsync (st : AaaStack) (fsync_ok : Bool) : AaaResult AaaStack := do
  let (_fd, st1) ← aaa_stack_pop_int st
  let st2 ← if fsync_ok = false then aaa_stack_push_bool st1 false else pure st1
  aaa_stack_push_bool st2 true

/-! ## Vector (vector.c) -/

/-- `aaa_vector_set` (vector.c:174): an offset at or beyond `size`
returns `false` with the vector untouched; otherwise the slot is
replaced by a copy of the value and `true` is returned. The element
array is modelled by the list of live slots (`size = length`; the
spare capacity never holds live values). -/
def aaa_vector_set (vec : List AaaVariable) (offset : Nat) (value : AaaVariable) :
    Bool × List AaaVariable :=
  if offset ≥ vec.length then (false, vec)
  else (true, vec.set offset (aaa_variable_copy value))

/-! ## Text (str.c) -/

/-- C-locale `isspace`: space (32) and the control bytes 9–13. -/
def c_isspace (b : Nat) : Bool := b == 32 || (9 ≤ b && b ≤ 13)

/-- `isdigit`: ASCII `0` (48) through `9` (57). -/
def c_isdigit (b : Nat) : Bool := 48 ≤ b && b ≤ 57

/-- `strstr(string->raw + start, sep->raw)` as an offset into the whole
string: the least `i ≥ start` at which `sep` is a prefix of the rest of
the string (an empty `sep` matches immediately at `start`), or `none`. -/
def strstr_from (s sep : List Nat) (start : Nat) : Option Nat :=
  (List.range' start (s.length + 1 - start)).find? fun i => sep.isPrefixOf (s.drop i)

/-- `aaa_string_substr` (str.c:190): fails when `end < start` or
`end > length`, else copies the bytes in `[start, end)`. -/
def aaa_string_substr (s : List Nat) (start stop : Nat) : Bool × List Nat :=
  if stop < start || decide (stop > s.length) then (false, [])
  else (true, (s.drop start).take (stop - start))

/-- One computation of the loop of `aaa_string_split`: the fragment end,
i.e. the next separator occurrence at or after `start`, or the string
length when there is none. -/
def split_end (s sep : List Nat) (start : Nat) : Nat :=
  (strstr_from s sep start).getD s.length

/-- The `while (start < string->length)` loop of `aaa_string_split`
(str.c:214): take the fragment `[start, end)`, push it, and resume at
`end + sep->length`. The source runs unboundedly; `fuel` bounds the
iterations here and `none` models exceeding the bound. -/
def split_loop (s sep : List Nat) : Nat → Nat → List (List Nat) → Option (List (List Nat))
  | 0, _, _ => none
  | fuel + 1, start, acc =>
      if start < s.length then
        let stop := split_end s sep start
        let frag := (aaa_string_substr s start stop).2
        split_loop s sep fuel (stop + sep.length) (acc ++ [frag])
      else some acc

/-- `aaa_string_split`, with fuel `length + 1` — enough for any
separator under which the scan position advances each iteration. -/
def aaa_string_split (s sep : List Nat) : Option (List (List Nat)) :=
  split_loop s sep (s.length + 1) 0 []

/-- `strtol(raw, &end, 10)` modelled on the byte list: skip C-locale
whitespace, accept one optional `-` (45) or `+` (43), then the maximal
run of decimal digits. No digits means no conversion — value 0 and
`end = nptr` (offset 0). Otherwise the value is the signed decimal
value clamped to `long` range and `end` points past the last digit. -/
def strtol10 (s : List Nat) : Int × Nat :=
  let ws := s.takeWhile c_isspace
  let rest := s.dropWhile c_isspace
  let sign_len : Int × Nat :=
    if rest.head? = some 45 then (-1, 1)
    else if rest.head? = some 43 then (1, 1)
    else (1, 0)
  let ds := (rest.drop sign_len.2).takeWhile c_isdigit
  if ds = [] then (0, 0)
  else
    let mag : Nat := ds.foldl (fun a b => a * 10 + (b - 48)) 0
    let v : Int := sign_len.1 * mag
    (max (min v (2 ^ 63 - 1)) (-(2 ^ 63)), ws.length + sign_len.2 + ds.length)

/-- `aaa_string_to_int` (str.c:174): `strtol` base 10, failing (value 0,
flag false) when the value overflows `int` range or the end pointer is
not the end of the string; succeeding with the converted value
otherwise. -/
def aaa_string_to_int (s : List Nat) : Int × Bool :=
  let converted := (strtol10 s).1
  let endOff := (strtol10 s).2
  if converted > 2 ^ 31 - 1 || converted < -(2 ^ 31) || endOff ≠ s.length then (0, false)
  else (converted, true)

/-- The decimal byte string of a natural number as `%u`/`%d` print it:
most-significant digit first, `0` printed as `"0"`. -/
def natDecBytes (n : Nat) : List Nat :=
  if n = 0 then [48] else (Nat.digits 10 n).reverse.map (fun d => d + 48)

/-- `aaa_variable_repr_int` (var.c:146): `snprintf("%d", integer)` — a
minus sign (45) followed by the decimal digits of the magnitude for
negatives, the plain decimal digits otherwise. -/
def aaa_variable_repr_int (n : Int) : List Nat :=
  if n < 0 then 45 :: natDecBytes n.natAbs else natDecBytes n.toNat

/-- The spec's notion of a decimal integer representation (§6: decimal
digits, with a minus sign for negatives; one or more digits), stated
generously — leading zeros are tolerated here, which only widens the
set of valid representations. -/
def isDecimalIntRepr (s : List Nat) : Bool :=
  match s with
  | 45 :: ds => !ds.isEmpty && ds.all c_isdigit
  | ds => !ds.isEmpty && ds.all c_isdigit

/-- The numeric value of a most-significant-first decimal digit-byte
string. -/
def specDigitsVal (d : List Nat) : Nat :=
  Nat.ofDigits 10 ((d.map fun b => b - 48).reverse)

/-! ## Theorems -/

set_option maxRecDepth 8000 in
/-- Claim C1: `Map.set` on an absent key inserts the entry and, when the
load factor `size / bucket_count` then exceeds 0.75, doubles
`bucket_count`; from a fresh map (16 buckets) enough distinct
insertions make `bucket_count` strictly exceed 16. The code violates
this: `aaa_map_rehash` returns immediately whenever the requested
bucket count is larger than the current one, so the doubling requested
by `aaa_map_set` never happens — after 13 distinct insertions the load
factor is 13/16 > 0.75 yet `bucket_count` is still 16. -/
theorem map_set_never_grows_bucket_count :
    mapThirteen.size = 13 ∧ 4 * mapThirteen.size > 3 * mapThirteen.bucket_count ∧
    mapThirteen.bucket_count = 16 := by
  refine ⟨by decide, by decide, by decide⟩

/-- Claim C2: rehashing preserves every entry. The code violates this:
the re-chaining loop of `aaa_map_rehash` iterates over `old_size`
buckets instead of the old `bucket_count`, so entries that live in a
bucket with index at or above `size` are dropped. Concretely, a fresh
map holding only `Integer 5 ↦ Integer 99` stores it in bucket 12;
rehashing to bucket count 16 scans only bucket 0, and the entry is
gone afterwards while `size` still claims 1. -/
theorem map_rehash_drops_entry :
    aaa_map_get mapSingle5 (.integer 5) = some (.integer 99) ∧
    mapSingle5.bucket_count = 16 ∧ mapSingle5.size = 1 ∧
    (aaa_map_rehash mapSingle5 16).size = 1 ∧
    aaa_map_get (aaa_map_rehash mapSingle5 16) (.integer 5) = none := by
  refine ⟨by decide, by decide, by decide, by decide, by decide⟩

/-- Claim C5: the `fsync` opcode should push exactly one value — a
trailing success boolean. The code violates this: on syscall failure it
pushes `false` and then, lacking an `else`, falls through and pushes
`true` as well, so the failure path pushes two booleans with `true` on
top, while the success path pushes one. -/
theorem fsync_failure_pushes_two_booleans :
    aaa_stack_fsync { data := [.integer (-1)], max_size := 1024 } false =
      .ok { data := [.boolean false, .boolean true], max_size := 1024 } ∧
    aaa_stack_fsync { data := [.integer (-1)], max_size := 1024 } true =
      .ok { data := [.boolean true], max_size := 1024 } := by
  refine ⟨by decide, by decide⟩

/-- Claim C6: splitting the Text `"a,b,,c"` (bytes 97 44 98 44 44 99)
on `","` (byte 44) yields exactly the fragments `"a"`, `"b"`, `""`,
`"c"` in order, the consecutive separators yielding the empty
fragment. -/
theorem split_scenario_a_b_empty_c :
    aaa_string_split [97, 44, 98, 44, 44, 99] [44] = some [[97], [98], [], [99]] := by
  decide

/-- Claim C4 counterexample: `aaa_string_split` has no empty-separator
rejection. On the one-byte Text `"a"` with the empty separator the scan
position never advances, and the loop — given the fuel bound
`length + 1` that suffices for every non-empty separator — fails to
produce a result (it would run forever in the C source, which checks
nothing about the separator). -/
theorem split_empty_separator_no_result :
    aaa_string_split [97] ([] : List Nat) = none := by
  decide

/-- A separator occurrence found at or after `start` lies at or after
`start`. -/
lemma strstr_from_ge {s sep : List Nat} {start i : Nat}
    (h : strstr_from s sep start = some i) : start ≤ i := by
  unfold strstr_from at h
  have hm := List.mem_of_find?_eq_some h
  exact (List.mem_range'_1.mp hm).1

/-- With a non-empty separator the scan position of the split loop
strictly advances: the next start `end + sep.length` exceeds the
current one. -/
lemma split_end_advance (s sep : List Nat) (start : Nat) (hsep : sep ≠ [])
    (hs : start < s.length) : start < split_end s sep start + sep.length := by
  have hlen : 0 < sep.length := List.length_pos.mpr hsep
  unfold split_end
  cases h : strstr_from s sep start with
  | some i => have := strstr_from_ge h; simp only [Option.getD_some]; omega
  | none => simp only [Option.getD_none]; omega

/-- Fuel sufficiency for the split loop: with a non-empty separator,
any fuel exceeding the remaining scan distance produces a result. -/
lemma split_loop_terminates (s sep : List Nat) (hsep : sep ≠ []) :
    ∀ (fuel start : Nat) (acc : List (List Nat)),
      s.length < start + fuel → 0 < fuel →
      ∃ r, split_loop s sep fuel start acc = some r := by
  intro fuel
  induction fuel with
  | zero => intro start acc _ hf; omega
  | succ n ih =>
      intro start acc h _
      by_cases hs : start < s.length
      · have hadv := split_end_advance s sep start hsep hs
        simp only [split_loop, if_pos hs]
        exact ih _ _ (by omega) (by omega)
      · exact ⟨acc, by simp only [split_loop, if_neg hs]⟩

/-- Claim C4 (amended): `aaa_string_split` performs no empty-separator
check. For every non-empty separator the split terminates with a vector
of fragments, the scan position strictly advancing on every fragment
produced; with the empty separator the scan position never advances and
the loop runs forever (for every fuel bound the bounded loop yields no
result). -/
theorem split_nonempty_separator_terminates :
    (∀ s sep : List Nat, sep ≠ [] →
       (∀ start, start < s.length → start < split_end s sep start + sep.length) ∧
       ∃ r, aaa_string_split s sep = some r) ∧
    (∀ (s : List Nat) (fuel start : Nat) (acc : List (List Nat)),
       start < s.length → split_loop s [] fuel start acc = none) := by
  constructor
  · intro s sep hsep
    refine ⟨fun start hs => split_end_advance s sep start hsep hs, ?_⟩
    exact split_loop_terminates s sep hsep (s.length + 1) 0 [] (by omega) (by omega)
  · intro s fuel
    induction fuel with
    | zero => intro start acc _; rfl
    | succ n ih =>
        intro start acc h
        have hss : strstr_from s [] start = some start := by
          unfold strstr_from
          have hk : s.length + 1 - start = (s.length - start) + 1 := by omega
          rw [hk, List.range'_succ]
          exact List.find?_cons_of_pos _ (by simp)
        simp only [split_loop, if_pos h, split_end, hss, Option.getD_some,
          List.length_nil, Nat.add_zero]
        exact ih start _ h

/-- Witness for `split_nonempty_separator_terminates`: splitting
`"a,b"` on `","` terminates; the loop on `"a"` with the empty separator
yields nothing even with fuel 5. -/
theorem split_nonempty_separator_terminates_witness :
    (([44] : List Nat) ≠ [] ∧ ∃ r, aaa_string_split [97, 44, 98] [44] = some r) ∧
    (0 < ([97] : List Nat).length ∧ split_loop [97] [] 5 0 [] = none) :=
  ⟨⟨by decide, (split_nonempty_separator_terminates.1 [97, 44, 98] [44] (by decide)).2⟩,
   ⟨by decide, split_nonempty_separator_terminates.2 [97] 5 0 [] (by decide)⟩⟩

/-- Left-to-right decimal accumulation equals the value of the digit
list read most-significant first. -/
lemma foldl_decimal (L : List Nat) :
    ∀ a : Nat, L.foldl (fun x d => x * 10 + d) a = a * 10 ^ L.length + Nat.ofDigits 10 L.reverse := by
  induction L with
  | nil => intro a; simp [Nat.ofDigits]
  | cons d L ih =>
      intro a
      rw [List.foldl_cons, ih (a * 10 + d)]
      rw [List.reverse_cons, Nat.ofDigits_append, Nat.ofDigits_singleton]
      simp only [List.length_cons, List.length_reverse]
      ring

/-- The digit fold of `strtol` computes `specDigitsVal`. -/
lemma foldl_digits_eq_specDigitsVal (d : List Nat) :
    d.foldl (fun a b => a * 10 + (b - 48)) 0 = specDigitsVal d := by
  unfold specDigitsVal
  rw [← List.foldl_map (fun b => b - 48) (fun x y => x * 10 + y) d 0]
  rw [foldl_decimal]
  simp

/-- `takeWhile`/`dropWhile` split an append at the first element
falsifying the predicate. -/
lemma takeWhile_dropWhile_append {p : Nat → Bool} :
    ∀ (w r : List Nat), (∀ x ∈ w, p x = true) → (∀ x ∈ r.head?, p x = false) →
      (w ++ r).takeWhile p = w ∧ (w ++ r).dropWhile p = r := by
  intro w
  induction w with
  | nil =>
      intro r _ hr
      cases r with
      | nil => simp
      | cons a t =>
          have ha : p a = false := hr a rfl
          simp [List.takeWhile_cons, List.dropWhile_cons, ha]
  | cons a w ih =>
      intro r hw hr
      have ha : p a = true := hw a (by simp)
      have := ih r (fun x hx => hw x (by simp [hx])) hr
      simp [List.takeWhile_cons, List.dropWhile_cons, ha, this.1, this.2]

/-- A `takeWhile` prefix of full length is the whole list. -/
lemma takeWhile_eq_of_length {p : Nat → Bool} {l : List Nat}
    (h : (l.takeWhile p).length = l.length) : l.takeWhile p = l :=
  (List.takeWhile_prefix p).eq_of_length h

/-- A decimal digit byte is not C whitespace. -/
lemma c_isdigit_not_isspace {b : Nat} (h : c_isdigit b = true) : c_isspace b = false := by
  simp only [c_isdigit, Bool.and_eq_true, decide_eq_true_eq] at h
  simp only [c_isspace, Bool.or_eq_false_iff, Bool.and_eq_false_iff, beq_eq_false_iff_ne,
    ne_eq, decide_eq_false_iff_not]
  omega

/-- The `long`-range clamp of `strtol` is the identity on values that
the `int`-range check of `to_int` admits. -/
lemma strtol_clamp_eq {raw : Int}
    (hlo : -(2 ^ 31) ≤ max (min raw (2 ^ 63 - 1)) (-(2 ^ 63)))
    (hhi : max (min raw (2 ^ 63 - 1)) (-(2 ^ 63)) ≤ 2 ^ 31 - 1) :
    max (min raw (2 ^ 63 - 1)) (-(2 ^ 63)) = raw := by
  rw [max_def, min_def] at *
  split_ifs at * <;> omega

/-- The clamp is also the identity on values already inside `int`
range. -/
lemma strtol_clamp_of_int_range {raw : Int} (hlo : -(2 ^ 31) ≤ raw)
    (hhi : raw ≤ 2 ^ 31 - 1) :
    max (min raw (2 ^ 63 - 1)) (-(2 ^ 63)) = raw := by
  rw [max_def, min_def]
  split_ifs <;> omega

/-- `strtol10` on an input decomposed as whitespace, an optional sign
and a non-empty all-digit tail: the whole input is consumed and the
value is the signed decimal value, clamped to `long` range. -/
lemma strtol10_decomp (w g d : List Nat) (hw : ∀ x ∈ w, c_isspace x = true)
    (hg : g = [] ∨ g = [43] ∨ g = [45]) (hd : d ≠ [])
    (hdig : ∀ x ∈ d, c_isdigit x = true) :
    strtol10 (w ++ (g ++ d)) =
      (max (min ((if g = [45] then -1 else 1) * (specDigitsVal d : Int)) (2 ^ 63 - 1))
        (-(2 ^ 63)), w.length + g.length + d.length) := by
  have hdtake : d.takeWhile c_isdigit = d := by
    have := takeWhile_dropWhile_append d [] hdig (by simp)
    simpa using this.1
  have hr : ∀ x ∈ (g ++ d).head?, c_isspace x = false := by
    rcases hg with hg | hg | hg <;> subst hg
    · simp only [List.nil_append]
      cases d with
      | nil => simp
      | cons b t =>
          intro x hx
          simp only [List.head?_cons, Option.mem_def, Option.some.injEq] at hx
          subst hx
          exact c_isdigit_not_isspace (hdig b (by simp))
    · intro x hx
      simp only [List.cons_append, List.head?_cons, Option.mem_def,
        Option.some.injEq] at hx
      subst hx
      decide
    · intro x hx
      simp only [List.cons_append, List.head?_cons, Option.mem_def,
        Option.some.injEq] at hx
      subst hx
      decide
  obtain ⟨htw, hdw⟩ := takeWhile_dropWhile_append w (g ++ d) hw hr
  rcases hg with hg | hg | hg <;> subst hg
  · simp only [List.nil_append] at htw hdw ⊢
    cases d with
    | nil => exact absurd rfl hd
    | cons b t =>
        have hb : c_isdigit b = true := hdig b (by simp)
        have hb45 : ¬ ((b :: t).head? = some 45) := by
          simp only [List.head?_cons, Option.some.injEq]
          simp only [c_isdigit, Bool.and_eq_true, decide_eq_true_eq] at hb
          omega
        have hb43 : ¬ ((b :: t).head? = some 43) := by
          simp only [List.head?_cons, Option.some.injEq]
          simp only [c_isdigit, Bool.and_eq_true, decide_eq_true_eq] at hb
          omega
        simp only [strtol10, htw, hdw, if_neg hb45, if_neg hb43, List.drop_zero,
          hdtake, if_neg hd, foldl_digits_eq_specDigitsVal]
        simp only [Prod.mk.injEq]
        refine ⟨by simp, by simp⟩
  · simp only [List.cons_append, List.nil_append] at htw hdw ⊢
    have h45 : ¬ ((43 :: d).head? = some 45) := by simp
    have h43 : (43 :: d).head? = some 43 := by simp
    simp only [strtol10, htw, hdw, if_neg h45, if_pos h43, List.drop_succ_cons,
      List.drop_zero, hdtake, if_neg hd, foldl_digits_eq_specDigitsVal]
    simp only [Prod.mk.injEq]
    refine ⟨by simp, by simp⟩
  · simp only [List.cons_append, List.nil_append] at htw hdw ⊢
    have h45 : (45 :: d).head? = some 45 := by simp
    simp only [strtol10, htw, hdw, if_pos h45, List.drop_succ_cons,
      List.drop_zero, hdtake, if_neg hd, foldl_digits_eq_specDigitsVal]
    simp only [Prod.mk.injEq]
    refine ⟨by simp, by simp⟩

/-- `strtol10` with the digit fold stated through `specDigitsVal`. -/
lemma strtol10_cases (s : List Nat) :
    strtol10 s =
      (let rest := s.dropWhile c_isspace
       let sl : Int × Nat :=
         if rest.head? = some 45 then (-1, 1)
         else if rest.head? = some 43 then (1, 1) else (1, 0)
       let ds := (rest.drop sl.2).takeWhile c_isdigit
       if ds = [] then (0, 0)
       else (max (min (sl.1 * (specDigitsVal ds : Int)) (2 ^ 63 - 1)) (-(2 ^ 63)),
             (s.takeWhile c_isspace).length + sl.2 + ds.length)) := by
  simp only [strtol10, foldl_digits_eq_specDigitsVal]

/-- Success of `to_int` forces the strtol decomposition: either the
whole string is empty, or it splits into whitespace, an optional sign
and a non-empty run of digits whose value is in `int` range. -/
lemma to_int_success_decomp (s : List Nat) (v : Int)
    (h : aaa_string_to_int s = (v, true)) :
    (s = [] ∧ v = 0) ∨
    ∃ w g d, s = w ++ (g ++ d) ∧ (∀ x ∈ w, c_isspace x = true) ∧
      (g = [] ∨ g = [43] ∨ g = [45]) ∧ d ≠ [] ∧ (∀ x ∈ d, c_isdigit x = true) ∧
      v = (if g = [45] then -1 else 1) * (specDigitsVal d : Int) ∧
      -(2 ^ 31) ≤ v ∧ v ≤ 2 ^ 31 - 1 := by
  unfold aaa_string_to_int at h
  simp only [gt_iff_lt] at h
  split_ifs at h with hc
  · exact absurd (congrArg Prod.snd h) (by simp)
  · have hv : (strtol10 s).1 = v := congrArg Prod.fst h
    simp only [Bool.or_eq_true, decide_eq_true_eq, not_or, not_lt, ne_eq, not_not] at hc
    obtain ⟨⟨hhi, hlo⟩, hend⟩ := hc
    have hsplit : s.takeWhile c_isspace ++ s.dropWhile c_isspace = s :=
      List.takeWhile_append_dropWhile c_isspace s
    have hwmem : ∀ x ∈ s.takeWhile c_isspace, c_isspace x = true :=
      fun x hx => List.mem_takeWhile_imp hx
    cases hre : s.dropWhile c_isspace with
    | nil =>
        have hstr : strtol10 s = (0, 0) := by
          rw [strtol10_cases, hre]
          simp
        rw [hstr] at hv hend
        have hs0 : s = [] := List.length_eq_zero.mp hend.symm
        exact Or.inl ⟨hs0, hv.symm⟩
    | cons b t =>
        have hslen : s.length = (s.takeWhile c_isspace).length + (t.length + 1) := by
          conv_lhs => rw [← hsplit]
          simp [hre]
        by_cases hb45 : b = 45
        · subst hb45
          cases hds : t.takeWhile c_isdigit with
          | nil =>
              have hstr : strtol10 s = (0, 0) := by
                rw [strtol10_cases, hre]
                simp [hds]
              rw [hstr] at hend
              exact absurd hend (by omega)
          | cons e u =>
              have hstr : strtol10 s =
                  (max (min (-(specDigitsVal (e :: u) : Int)) (2 ^ 63 - 1)) (-(2 ^ 63)),
                    (s.takeWhile c_isspace).length + 1 + (e :: u).length) := by
                rw [strtol10_cases, hre]
                simp [hds]
              rw [hstr] at hv hend hhi hlo
              dsimp only at hv hend hhi hlo
              have hcl := strtol_clamp_eq hlo hhi
              rw [hcl] at hv
              have hlen : (t.takeWhile c_isdigit).length = t.length := by
                rw [hds]
                simp only [List.length_cons] at hend ⊢
                omega
              have hteq : t = e :: u := by rw [← takeWhile_eq_of_length hlen, hds]
              have hdd : ∀ x ∈ e :: u, c_isdigit x = true := by
                rw [← hds]
                exact fun x hx => List.mem_takeWhile_imp hx
              refine Or.inr ⟨s.takeWhile c_isspace, [45], e :: u, ?_, hwmem,
                Or.inr (Or.inr rfl), List.cons_ne_nil e u, hdd, ?_, ?_, ?_⟩
              · conv_lhs => rw [← hsplit]
                rw [hre, hteq]
                rfl
              · rw [← hv, if_pos rfl]
                simp
              · rw [← hv]
                rw [hcl] at hlo
                exact hlo
              · rw [← hv]
                rw [hcl] at hhi
                exact hhi
        · by_cases hb43 : b = 43
          · subst hb43
            cases hds : t.takeWhile c_isdigit with
            | nil =>
                have hstr : strtol10 s = (0, 0) := by
                  rw [strtol10_cases, hre]
                  simp [hds]
                rw [hstr] at hend
                exact absurd hend (by omega)
            | cons e u =>
                have hstr : strtol10 s =
                    (max (min ((specDigitsVal (e :: u) : Int)) (2 ^ 63 - 1)) (-(2 ^ 63)),
                      (s.takeWhile c_isspace).length + 1 + (e :: u).length) := by
                  rw [strtol10_cases, hre]
                  simp [hds]
                rw [hstr] at hv hend hhi hlo
                dsimp only at hv hend hhi hlo
                have hcl := strtol_clamp_eq hlo hhi
                rw [hcl] at hv
                have hlen : (t.takeWhile c_isdigit).length = t.length := by
                  rw [hds]
                  simp only [List.length_cons] at hend ⊢
                  omega
                have hteq : t = e :: u := by rw [← takeWhile_eq_of_length hlen, hds]
                have hdd : ∀ x ∈ e :: u, c_isdigit x = true := by
                  rw [← hds]
                  exact fun x hx => List.mem_takeWhile_imp hx
                refine Or.inr ⟨s.takeWhile c_isspace, [43], e :: u, ?_, hwmem,
                  Or.inr (Or.inl rfl), List.cons_ne_nil e u, hdd, ?_, ?_, ?_⟩
                · conv_lhs => rw [← hsplit]
                  rw [hre, hteq]
                  rfl
                · rw [← hv, if_neg (by simp), one_mul]
                · rw [← hv]
                  rw [hcl] at hlo
                  exact hlo
                · rw [← hv]
                  rw [hcl] at hhi
                  exact hhi
          · cases hds : (b :: t).takeWhile c_isdigit with
            | nil =>
                have hstr : strtol10 s = (0, 0) := by
                  rw [strtol10_cases, hre]
                  simp [hds, hb45, hb43]
                rw [hstr] at hend
                exact absurd hend (by omega)
            | cons e u =>
                have hstr : strtol10 s =
                    (max (min ((specDigitsVal (e :: u) : Int)) (2 ^ 63 - 1)) (-(2 ^ 63)),
                      (s.takeWhile c_isspace).length + 0 + (e :: u).length) := by
                  rw [strtol10_cases, hre]
                  simp [hds, hb45, hb43]
                rw [hstr] at hv hend hhi hlo
                dsimp only at hv hend hhi hlo
                have hcl := strtol_clamp_eq hlo hhi
                rw [hcl] at hv
                have hlen : ((b :: t).takeWhile c_isdigit).length = (b :: t).length := by
                  rw [hds]
                  simp only [List.length_cons] at hend hslen ⊢
                  omega
                have hteq : b :: t = e :: u := by rw [← takeWhile_eq_of_length hlen, hds]
                have hdd : ∀ x ∈ e :: u, c_isdigit x = true := by
                  rw [← hds]
                  exact fun x hx => List.mem_takeWhile_imp hx
                refine Or.inr ⟨s.takeWhile c_isspace, [], e :: u, ?_, hwmem,
                  Or.inl rfl, List.cons_ne_nil e u, hdd, ?_, ?_, ?_⟩
                · rw [List.nil_append]
                  conv_lhs => rw [← hsplit]
                  rw [hre, hteq]
                · rw [← hv, if_neg (by simp), one_mul]
                · rw [← hv]
                  rw [hcl] at hlo
                  exact hlo
                · rw [← hv]
                  rw [hcl] at hhi
                  exact hhi

/-- Claim C7 (amended): `to_int` never has a third behaviour — it
returns either `(v, true)` or the sentinel `(0, false)` — and it
succeeds exactly on the strings wholly consumed by the `strtol` parse:
the empty string (value 0), or optional C-locale whitespace, an
optional `+`/`-` sign and a non-empty digit run reaching the end of
the string, with the signed decimal value within `int` range; the
returned value is then that value. -/
theorem to_int_strtol_whole_string_parse :
    ∀ s : List Nat,
      ((∃ v, aaa_string_to_int s = (v, true)) ∨ aaa_string_to_int s = (0, false)) ∧
      ∀ v : Int, aaa_string_to_int s = (v, true) ↔
        ((s = [] ∧ v = 0) ∨
         ∃ w g d, s = w ++ (g ++ d) ∧ (∀ x ∈ w, c_isspace x = true) ∧
           (g = [] ∨ g = [43] ∨ g = [45]) ∧ d ≠ [] ∧ (∀ x ∈ d, c_isdigit x = true) ∧
           v = (if g = [45] then -1 else 1) * (specDigitsVal d : Int) ∧
           -(2 ^ 31) ≤ v ∧ v ≤ 2 ^ 31 - 1) := by
  intro s
  constructor
  · unfold aaa_string_to_int
    simp only [gt_iff_lt]
    split_ifs
    · exact Or.inr rfl
    · exact Or.inl ⟨_, rfl⟩
  · intro v
    constructor
    · exact to_int_success_decomp s v
    · rintro (⟨hs, hv⟩ | ⟨w, g, d, hs, hw, hg, hd, hdig, hv, hlo, hhi⟩)
      · subst hs
        subst hv
        decide
      · subst hs
        unfold aaa_string_to_int
        rw [strtol10_decomp w g d hw hg hd hdig]
        dsimp only
        rw [← hv, strtol_clamp_of_int_range hlo hhi]
        rw [if_neg ?side]
        case side =>
          simp only [Bool.or_eq_true, decide_eq_true_eq, not_or, not_lt, ne_eq, not_not,
            List.length_append, gt_iff_lt]
          refine ⟨⟨hhi, hlo⟩, by omega⟩

/-- Claim C7 counterexample: `to_int` on the empty Text reports success
with value 0 — `strtol` performs no conversion, leaves the end pointer
at the start of the string, and for an empty string that equals the end
of the string — although the empty byte sequence is not a decimal
integer representation. -/
theorem to_int_accepts_empty_string :
    aaa_string_to_int [] = (0, true) ∧ isDecimalIntRepr [] = false := by
  refine ⟨by decide, by decide⟩

lemma AaaResult.ok_bind {α β : Type} (a : α) (f : α → AaaResult β) :
    (AaaResult.ok a >>= f) = f a := rfl

/-- Popping a stack whose top element is exposed as an appended
singleton: the underflow check passes, the unchecked `data[size - 1]`
read is in bounds, and the top is returned. -/
lemma aaa_stack_pop_append (base : List AaaVariable) (v : AaaVariable) (ms : Nat)
    (h : base.length + 1 < 2 ^ 64) :
    aaa_stack_pop { data := base ++ [v], max_size := ms } =
      .ok (v, { data := base, max_size := ms }) := by
  have hidx : ((base ++ [v]).length + (2 ^ 64 - 1)) % 2 ^ 64 = base.length := by
    simp only [List.length_append, List.length_cons, List.length_nil]
    omega
  simp only [aaa_stack_pop, aaa_stack_top, hidx, List.getElem?_concat_length]
  rw [if_neg (by simp)]
  simp only [List.dropLast_concat]
  rfl

/-- `aaa_stack_pop_int` on a stack with an Integer on top. -/
lemma aaa_stack_pop_int_append (base : List AaaVariable) (n : Int) (ms : Nat)
    (h : base.length + 1 < 2 ^ 64) :
    aaa_stack_pop_int { data := base ++ [.integer n], max_size := ms } =
      .ok (n, { data := base, max_size := ms }) := by
  unfold aaa_stack_pop_int
  rw [aaa_stack_pop_append base _ ms h]
  rfl

/-- `aaa_stack_push` below the overflow limit. -/
lemma aaa_stack_push_small (base : List AaaVariable) (v : AaaVariable)
    (h : base.length + 1 < 1024) :
    aaa_stack_push { data := base, max_size := 1024 } v =
      .ok { data := base ++ [v], max_size := 1024 } := by
  unfold aaa_stack_push
  rw [if_neg (show ¬ base.length + 1 ≥ 1024 by omega)]

/-- Claim C3: the divide and modulo opcodes never abort on a zero
divisor: both pop `rhs` then `lhs`; with `rhs = 0` they push
`(0, false)`, and otherwise `(lhs / rhs, true)` resp. `(lhs % rhs, true)`
with C truncating division. (The length bound keeps the two result
pushes below the fixed 1024-slot overflow limit.) -/
theorem divide_modulo_by_zero_divisor (base : List AaaVariable) (lhs rhs : Int)
    (h : base.length + 2 < 1024) :
    aaa_stack_divide { data := base ++ [.integer lhs, .integer rhs], max_size := 1024 } =
      .ok { data := base ++ [.integer (if rhs = 0 then 0 else Int.tdiv lhs rhs),
                             .boolean (decide (rhs ≠ 0))], max_size := 1024 } ∧
    aaa_stack_modulo { data := base ++ [.integer lhs, .integer rhs], max_size := 1024 } =
      .ok { data := base ++ [.integer (if rhs = 0 then 0 else Int.tmod lhs rhs),
                             .boolean (decide (rhs ≠ 0))], max_size := 1024 } := by
  have hsplit : base ++ [AaaVariable.integer lhs, AaaVariable.integer rhs] =
      (base ++ [AaaVariable.integer lhs]) ++ [AaaVariable.integer rhs] := by simp
  have h1 : aaa_stack_pop_int
      { data := base ++ [AaaVariable.integer lhs, AaaVariable.integer rhs], max_size := 1024 } =
      .ok (rhs, { data := base ++ [AaaVariable.integer lhs], max_size := 1024 }) := by
    rw [hsplit]
    exact aaa_stack_pop_int_append _ _ _ (by simp; omega)
  have h2 := aaa_stack_pop_int_append base lhs 1024 (by omega)
  have hp0 : ∀ x : AaaVariable, aaa_stack_push { data := base, max_size := 1024 } x =
      .ok { data := base ++ [x], max_size := 1024 } :=
    fun x => aaa_stack_push_small base x (by omega)
  have hp1 : ∀ x y : AaaVariable,
      aaa_stack_push { data := base ++ [x], max_size := 1024 } y =
      .ok { data := (base ++ [x]) ++ [y], max_size := 1024 } :=
    fun x y => aaa_stack_push_small (base ++ [x]) y (by simp; omega)
  constructor
  · unfold aaa_stack_divide
    simp only [h1, AaaResult.ok_bind, h2]
    by_cases hz : rhs = 0
    · simp only [hz, if_pos rfl, aaa_stack_push_int, aaa_stack_push_bool, hp0,
        AaaResult.ok_bind, hp1]
      simp [hz]
    · simp only [if_neg hz, aaa_stack_push_int, aaa_stack_push_bool, hp0,
        AaaResult.ok_bind, hp1]
      simp [hz]
  · unfold aaa_stack_modulo
    simp only [h1, AaaResult.ok_bind, h2]
    by_cases hz : rhs = 0
    · simp only [hz, if_pos rfl, aaa_stack_push_int, aaa_stack_push_bool, hp0,
        AaaResult.ok_bind, hp1]
      simp [hz]
    · simp only [if_neg hz, aaa_stack_push_int, aaa_stack_push_bool, hp0,
        AaaResult.ok_bind, hp1]
      simp [hz]

/-- Witness for `divide_modulo_by_zero_divisor`: `10 divide 0` yields
`(0, false)` on the stack, `10 modulo 0` likewise. -/
theorem divide_modulo_by_zero_divisor_witness :
    ([] : List AaaVariable).length + 2 < 1024 ∧
    (aaa_stack_divide { data := [] ++ [.integer 10, .integer 0], max_size := 1024 } =
      .ok { data := [] ++ [.integer (if (0 : Int) = 0 then 0 else Int.tdiv 10 0),
                           .boolean (decide ((0 : Int) ≠ 0))], max_size := 1024 } ∧
     aaa_stack_modulo { data := [] ++ [.integer 10, .integer 0], max_size := 1024 } =
      .ok { data := [] ++ [.integer (if (0 : Int) = 0 then 0 else Int.tmod 10 0),
                           .boolean (decide ((0 : Int) ≠ 0))], max_size := 1024 }) :=
  ⟨by decide, divide_modulo_by_zero_divisor [] 10 0 (by decide)⟩

/-- Claim C10: `dup`, unlike `pop`, performs no underflow check: `pop`
on the empty stack takes the fatal-underflow path, while `dup` on the
empty stack reads `data[size - 1]` with `size = 0` — in `size_t`
arithmetic the out-of-bounds index `2^64 - 1` below the stack base.
Under `dup`'s implicit precondition of a non-empty stack the same read
is at `size - 1 < size`, in bounds, and returns the top value. (The
`2^64` bound on the length is satisfied by every realizable stack,
whose size never exceeds `max_size`.) -/
theorem dup_has_no_underflow_check :
    aaa_stack_pop aaa_stack_init = .underflow ∧
    aaa_stack_dup aaa_stack_init = .oobRead (2 ^ 64 - 1) ∧
    ∀ st : AaaStack, 0 < st.data.length → st.data.length < 2 ^ 64 →
      (st.data.length + (2 ^ 64 - 1)) % 2 ^ 64 = st.data.length - 1 ∧
      st.data.length - 1 < st.data.length ∧
      ∃ v, st.data[st.data.length - 1]? = some v ∧ aaa_stack_top st = .ok v := by
  refine ⟨by decide, by decide, ?_⟩
  intro st h1 h2
  have hidx : (st.data.length + (2 ^ 64 - 1)) % 2 ^ 64 = st.data.length - 1 := by omega
  have hlt : st.data.length - 1 < st.data.length := by omega
  refine ⟨hidx, hlt, st.data[st.data.length - 1], List.getElem?_eq_getElem hlt, ?_⟩
  unfold aaa_stack_top
  simp only [hidx, List.getElem?_eq_getElem hlt]

/-- Witness for `dup_has_no_underflow_check` at a one-element stack. -/
theorem dup_has_no_underflow_check_witness :
    0 < (AaaStack.mk [.integer 5] 1024).data.length ∧
    (AaaStack.mk [.integer 5] 1024).data.length < 2 ^ 64 ∧
    ((AaaStack.mk [.integer 5] 1024).data.length + (2 ^ 64 - 1)) % 2 ^ 64 =
        (AaaStack.mk [.integer 5] 1024).data.length - 1 ∧
    (AaaStack.mk [.integer 5] 1024).data.length - 1 <
        (AaaStack.mk [.integer 5] 1024).data.length ∧
    ∃ v, (AaaStack.mk [.integer 5] 1024).data[
          (AaaStack.mk [.integer 5] 1024).data.length - 1]? = some v ∧
      aaa_stack_top (AaaStack.mk [.integer 5] 1024) = .ok v :=
  ⟨by decide, by decide,
    dup_has_no_underflow_check.2.2 (AaaStack.mk [.integer 5] 1024) (by decide) (by decide)⟩

/-- Claim C8: `Vector.set` with an out-of-range index returns `false`
and leaves the vector unchanged; with an in-range index it returns
`true`, replaces exactly the addressed slot, and preserves the size and
every other slot. (The success flag is `offset < size`; the slot
characterization covers both cases at every index.) -/
theorem vector_set_in_range_frame :
    ∀ (vec : List AaaVariable) (offset : Nat) (value : AaaVariable),
      (aaa_vector_set vec offset value).1 = decide (offset < vec.length) ∧
      (aaa_vector_set vec offset value).2.length = vec.length ∧
      ∀ j : Nat, ((aaa_vector_set vec offset value).2)[j]? =
        if j = offset ∧ offset < vec.length then some (aaa_variable_copy value)
        else vec[j]? := by
  intro vec offset value
  by_cases h : offset < vec.length
  · have h2 : ¬ offset ≥ vec.length := by omega
    refine ⟨by simp [aaa_vector_set, h2, h], by simp [aaa_vector_set, h2], ?_⟩
    intro j
    by_cases hj : j = offset
    · subst hj
      simp [aaa_vector_set, h2, h, List.getElem?_set_self h]
    · simp [aaa_vector_set, h2, hj, List.getElem?_set_ne fun he => hj he.symm]
  · have h2 : offset ≥ vec.length := by omega
    refine ⟨by simp [aaa_vector_set, h2, h], by simp [aaa_vector_set, h2], ?_⟩
    intro j
    simp [aaa_vector_set, h2, h]

/-- `natDecBytes` is never empty. -/
lemma natDecBytes_ne_nil (m : Nat) : natDecBytes m ≠ [] := by
  unfold natDecBytes
  split_ifs with h
  · simp
  · simp [Nat.digits_ne_nil_iff_ne_zero.mpr h]

/-- Every byte of `natDecBytes` is a decimal digit. -/
lemma natDecBytes_all_digits (m : Nat) : ∀ b ∈ natDecBytes m, c_isdigit b = true := by
  unfold natDecBytes
  split_ifs with h
  · intro b hb
    simp only [List.mem_singleton] at hb
    subst hb
    decide
  · intro b hb
    simp only [List.mem_map, List.mem_reverse] at hb
    obtain ⟨d, hd, rfl⟩ := hb
    have hd10 : d < 10 := Nat.digits_lt_base (by norm_num) hd
    simp only [c_isdigit, Bool.and_eq_true, decide_eq_true_eq]
    omega

/-- Parsing the decimal bytes of `m` yields `m` back. -/
lemma specDigitsVal_natDecBytes (m : Nat) : specDigitsVal (natDecBytes m) = m := by
  unfold specDigitsVal natDecBytes
  split_ifs with h
  · subst h
    decide
  · rw [List.map_map]
    have hcomp : ((fun b => b - 48) ∘ fun d => d + 48) = id := by
      funext d
      simp
    rw [hcomp, List.map_id, List.reverse_reverse, Nat.ofDigits_digits]

/-- The leading decimal byte of a non-zero natural is not `0` (48). -/
lemma natDecBytes_head_ne_zero (m : Nat) (hm : m ≠ 0) :
    (natDecBytes m).head? ≠ some 48 := by
  unfold natDecBytes
  rw [if_neg hm, List.head?_map, List.head?_reverse]
  have hne : Nat.digits 10 m ≠ [] := Nat.digits_ne_nil_iff_ne_zero.mpr hm
  rw [List.getLast?_eq_getLast _ hne]
  have hlast : (Nat.digits 10 m).getLast hne ≠ 0 := Nat.getLast_digit_ne_zero 10 hm
  simp only [Option.map_some', ne_eq, Option.some.injEq]
  omega

/-- Claim C9: `repr` of an Integer `n` is its decimal representation —
a leading minus sign (45) exactly for negatives, decimal digit bytes
elsewhere, with no leading zero (48) unless `n = 0` — and round-trips:
`to_int (repr n) = (n, true)`. (`n` ranges over C `int` values.) -/
theorem repr_int_round_trips (n : Int) (hlo : -(2 ^ 31) ≤ n) (hhi : n ≤ 2 ^ 31 - 1) :
    aaa_string_to_int (aaa_variable_repr_int n) = (n, true) ∧
    ((aaa_variable_repr_int n).head? = some 45 ↔ n < 0) ∧
    (∀ b ∈ (if n < 0 then (aaa_variable_repr_int n).drop 1 else aaa_variable_repr_int n),
        c_isdigit b = true) ∧
    (n ≠ 0 →
      (if n < 0 then (aaa_variable_repr_int n).drop 1
        else aaa_variable_repr_int n).head? ≠ some 48) := by
  by_cases hneg : n < 0
  · have hrepr : aaa_variable_repr_int n = 45 :: natDecBytes n.natAbs := by
      unfold aaa_variable_repr_int
      rw [if_pos hneg]
    have hd := natDecBytes_all_digits n.natAbs
    have hne := natDecBytes_ne_nil n.natAbs
    refine ⟨?_, ?_, ?_, ?_⟩
    · unfold aaa_string_to_int
      have hdecomp : aaa_variable_repr_int n = [] ++ ([45] ++ natDecBytes n.natAbs) := by
        rw [hrepr]
        rfl
      rw [hdecomp, strtol10_decomp [] [45] _ (by simp) (Or.inr (Or.inr rfl)) hne hd]
      dsimp only
      rw [specDigitsVal_natDecBytes]
      have hval : (if ([45] : List Nat) = [45] then (-1 : Int) else 1) * (n.natAbs : Int) = n := by
        rw [if_pos rfl]
        have habs : (n.natAbs : Int) = -n := Int.ofNat_natAbs_of_nonpos (le_of_lt hneg)
        rw [habs]
        ring
      rw [if_pos rfl, show (-1 : Int) * (n.natAbs : Int) = n from hval]
      rw [strtol_clamp_of_int_range hlo hhi]
      rw [if_neg ?side]
      case side =>
        simp only [Bool.or_eq_true, decide_eq_true_eq, not_or, not_lt, ne_eq, not_not,
          List.length_append, List.length_cons, List.length_nil, gt_iff_lt]
        refine ⟨⟨hhi, hlo⟩, by omega⟩
    · rw [hrepr]
      simp [hneg]
    · rw [hrepr, if_pos hneg]
      simpa using hd
    · intro _
      rw [hrepr, if_pos hneg]
      simp only [List.drop_succ_cons, List.drop_zero]
      exact natDecBytes_head_ne_zero n.natAbs (by simpa [Int.natAbs_eq_zero] using hneg.ne)
  · have hrepr : aaa_variable_repr_int n = natDecBytes n.toNat := by
      unfold aaa_variable_repr_int
      rw [if_neg hneg]
    have hd := natDecBytes_all_digits n.toNat
    have hne := natDecBytes_ne_nil n.toNat
    refine ⟨?_, ?_, ?_, ?_⟩
    · unfold aaa_string_to_int
      have hdecomp : aaa_variable_repr_int n = [] ++ ([] ++ natDecBytes n.toNat) := by
        rw [hrepr]
        rfl
      rw [hdecomp, strtol10_decomp [] [] _ (by simp) (Or.inl rfl) hne hd]
      dsimp only
      rw [specDigitsVal_natDecBytes]
      rw [if_neg (show ¬ ([] : List Nat) = [45] by simp), one_mul]
      have htn : (n.toNat : Int) = n := Int.toNat_of_nonneg (not_lt.mp hneg)
      rw [htn, strtol_clamp_of_int_range hlo hhi]
      rw [if_neg ?side2]
      case side2 =>
        simp only [Bool.or_eq_true, decide_eq_true_eq, not_or, not_lt, ne_eq, not_not,
          List.length_append, List.length_nil, gt_iff_lt]
        refine ⟨⟨hhi, hlo⟩, by omega⟩
    · rw [hrepr]
      constructor
      · intro hh
        have hb : (45 : Nat) ∈ natDecBytes n.toNat := List.mem_of_mem_head? (by simp [hh])
        have := hd 45 hb
        exact absurd this (by decide)
      · intro hn
        exact absurd hn hneg
    · rw [hrepr, if_neg hneg]
      exact hd
    · intro hn0
      rw [hrepr, if_neg hneg]
      refine natDecBytes_head_ne_zero n.toNat ?_
      have : (0 : Int) ≤ n := not_lt.mp hneg
      intro htn0
      exact hn0 (by omega)

/-- Witness for `repr_int_round_trips` at `n = -42`. -/
theorem repr_int_round_trips_witness :
    -(2 ^ 31) ≤ (-42 : Int) ∧ (-42 : Int) ≤ 2 ^ 31 - 1 ∧
    (aaa_string_to_int (aaa_variable_repr_int (-42)) = (-42, true) ∧
     ((aaa_variable_repr_int (-42)).head? = some 45 ↔ (-42 : Int) < 0) ∧
     (∀ b ∈ (if (-42 : Int) < 0 then (aaa_variable_repr_int (-42)).drop 1
             else aaa_variable_repr_int (-42)), c_isdigit b = true) ∧
     ((-42 : Int) ≠ 0 →
       (if (-42 : Int) < 0 then (aaa_variable_repr_int (-42)).drop 1
        else aaa_variable_repr_int (-42)).head? ≠ some 48)) :=
  ⟨by decide, by decide, repr_int_round_trips (-42) (by decide) (by decide)⟩

end Aaa


